import Mathlib

/-!
Verification of the EpicBot synchronization engine.

This file is a shallow embedding of the JavaScript source of the
`projectdissolve/epicbot` GitHub action (file `index.js`, referred to below
by its line numbers).  The engine keeps a parent "Epic" issue's embedded
checklist of task references synchronized with the live state of the task
issues.  Strings are modelled as Lean `String` / `List Char`; the single
regular expression of the source,

  `/(?<pre> *)- \[(?<closed>.)\] #(?<number>[0-9]+) *(?<title>.*)/`

is modelled by an explicit leftmost-match scanner (`taskExec`), and all
I/O calls to the issue store are modelled by an explicit trace of
`Mutation`s together with a failure oracle on `Call`s.
-/

namespace EpicBot

/-- Characters that the JavaScript regex metacharacter `.` does not match
(line terminators). -/
def isTerm (c : Char) : Bool :=
  c == '\n' || c == '\r' || c == '\u2028' || c == '\u2029'

/-- Numeric value of a digit string, most significant digit first.  This is
what both `parseInt` (source line 112) and JavaScript loose equality
`match.groups.number != taskIssue.number` (source lines 293 and 328) compute
on an all-digit capture. -/
def digitsVal (ds : List Char) : Nat :=
  ds.foldl (fun a c => a * 10 + (c.toNat - 48)) 0

/-- Fuelled decimal digit expansion; `natDigitsAux n n` is the list of
decimal digits of `n` for `n > 0`. -/
def natDigitsAux : Nat → Nat → List Char
  | _, 0 => []
  | 0, _ + 1 => []
  | fuel + 1, n + 1 =>
    natDigitsAux fuel ((n + 1) / 10) ++ [Nat.digitChar ((n + 1) % 10)]

/-- Decimal rendering of a natural number, as JavaScript string conversion
of an integer produces it (used when the source concatenates
`taskIssue.number` or `epicNumber` into a string). -/
def natDigits (n : Nat) : List Char :=
  if n = 0 then ['0'] else natDigitsAux n n

/-- Decimal rendering as a `String`. -/
def natStr (n : Nat) : String :=
  String.mk (natDigits n)

/-- Result of a successful match of the task-line regular expression
(source line 11): the four named capture groups. -/
structure TaskMatch where
  pre : List Char
  closed : Char
  number : List Char
  title : List Char
deriving Repr, DecidableEq

/-- Match the body of the task expression, `- \[(.)\] #([0-9]+) *(.*)`,
anchored at the head of the character list.  The `closed` group is the
regex `.` (any non-terminator character), `number` is a greedy nonempty
digit run, a greedy space run is then skipped, and `title` is the greedy
remainder (stopping at a line terminator, as `.` does). -/
def coreMatch : List Char → Option (Char × List Char × List Char)
  | '-' :: ' ' :: '[' :: c :: ']' :: ' ' :: '#' :: rest =>
    if isTerm c then none
    else
      let digits := rest.takeWhile (·.isDigit)
      if digits = [] then none
      else
        some (c, digits,
          ((rest.dropWhile (·.isDigit)).dropWhile (· == ' ')).takeWhile
            (fun d => !isTerm d))
  | _ => none

/-- Leftmost-match scan for the task expression.  `seen` holds the already
scanned characters in reverse; when the core pattern matches at the current
position, the `pre` capture is the run of spaces immediately preceding it
(greedy ` *` with leftmost-match semantics of `RegExp.exec`). -/
def execGo : List Char → List Char → Option TaskMatch
  | _, [] => none
  | seen, c :: rest =>
    match coreMatch (c :: rest) with
    | some (cl, digits, title) =>
      some ⟨(seen.takeWhile (· == ' ')).reverse, cl, digits, title⟩
    | none => execGo (c :: seen) rest

/-- Model of `taskExpression.exec(line)` (source line 11): the regex is
unanchored, so the engine reports the leftmost successful match. -/
def taskExec (line : String) : Option TaskMatch :=
  execGo [] line.data

/-- Reconstruction of a checklist line,
`pre + "- [" + (closed ? "x" : " ") + "] #" + number + " " + title`
(source lines 354 and 393). -/
def renderLine (pre : List Char) (closed : Bool) (n : Nat) (title : List Char) :
    List Char :=
  pre ++ ('-' :: ' ' :: '[' :: (if closed then 'x' else ' ') :: ']' :: ' ' ::
    '#' :: (natDigits n ++ ' ' :: title))

/-- Render of the parse of a line: parse it with the task expression and
rebuild the line from the captured indent, the closed flag, the numeric
value of the number capture and the captured title, exactly as the source
rebuilds updated lines. -/
def renderOfParse (line : String) : Option String :=
  (taskExec line).map fun m =>
    String.mk (renderLine m.pre (m.closed == 'x') (digitsVal m.number) m.title)

/- ### Basic facts about digits -/

theorem digitsVal_append_singleton (ds : List Char) (c : Char) :
    digitsVal (ds ++ [c]) = digitsVal ds * 10 + (c.toNat - 48) := by
  simp [digitsVal, List.foldl_append]

theorem natDigitsAux_all {p : Char → Bool}
    (hp : ∀ d, d < 10 → p (Nat.digitChar d) = true) :
    ∀ fuel n, (natDigitsAux fuel n).all p = true := by
  intro fuel
  induction fuel with
  | zero => intro n; cases n <;> simp [natDigitsAux]
  | succ fuel ih =>
    intro n
    cases n with
    | zero => simp [natDigitsAux]
    | succ m =>
      simp only [natDigitsAux, List.all_append, List.all_cons, List.all_nil,
        Bool.and_eq_true]
      exact ⟨ih _, by simp [hp _ (Nat.mod_lt _ (by omega))]⟩

theorem natDigits_all {p : Char → Bool}
    (hp : ∀ d, d < 10 → p (Nat.digitChar d) = true) (n : Nat) :
    (natDigits n).all p = true := by
  unfold natDigits
  split
  · simpa using hp 0 (by omega)
  · exact natDigitsAux_all hp _ _

theorem natDigitsAux_ne_nil (fuel n : Nat) (h1 : 0 < n) (h2 : 0 < fuel) :
    natDigitsAux fuel n ≠ [] := by
  cases fuel with
  | zero => omega
  | succ f =>
    cases n with
    | zero => omega
    | succ m => simp [natDigitsAux]

theorem natDigits_ne_nil (n : Nat) : natDigits n ≠ [] := by
  unfold natDigits
  split
  · simp
  · exact natDigitsAux_ne_nil _ _ (by omega) (by omega)

theorem digitChar_toNat (d : Nat) (h : d < 10) :
    (Nat.digitChar d).toNat - 48 = d := by
  interval_cases d <;> decide

theorem natDigitsAux_val :
    ∀ fuel n, n ≤ fuel → digitsVal (natDigitsAux fuel n) = n := by
  intro fuel
  induction fuel with
  | zero =>
    intro n h
    interval_cases n
    simp [natDigitsAux, digitsVal]
  | succ fuel ih =>
    intro n h
    cases n with
    | zero => simp [natDigitsAux, digitsVal]
    | succ m =>
      rw [natDigitsAux, digitsVal_append_singleton,
        ih ((m + 1) / 10) (by omega),
        digitChar_toNat _ (Nat.mod_lt _ (by omega))]
      omega

theorem digitsVal_natDigits (n : Nat) : digitsVal (natDigits n) = n := by
  unfold natDigits
  split
  · simp_all [digitsVal]
  · exact natDigitsAux_val n n (le_refl n)

theorem natDigits_digits (n : Nat) : (natDigits n).all (·.isDigit) = true := by
  refine natDigits_all ?_ n
  intro d hd
  interval_cases d <;> decide

/- ### Small list facts used when stepping the match through a line -/

theorem takeWhile_all_append {p : Char → Bool} {l1 : List Char}
    (h : l1.all p = true) (l2 : List Char) :
    (l1 ++ l2).takeWhile p = l1 ++ l2.takeWhile p := by
  induction l1 with
  | nil => simp
  | cons c cs ih =>
    simp only [List.all_cons, Bool.and_eq_true] at h
    simp [List.takeWhile_cons, h.1, ih h.2]

theorem dropWhile_all_append {p : Char → Bool} {l1 : List Char}
    (h : l1.all p = true) (l2 : List Char) :
    (l1 ++ l2).dropWhile p = l2.dropWhile p := by
  induction l1 with
  | nil => simp
  | cons c cs ih =>
    simp only [List.all_cons, Bool.and_eq_true] at h
    simp [List.dropWhile_cons, h.1, ih h.2]

theorem takeWhile_eq_self_of_all {p : Char → Bool} {l : List Char}
    (h : l.all p = true) : l.takeWhile p = l := by
  induction l with
  | nil => simp
  | cons c cs ih =>
    simp only [List.all_cons, Bool.and_eq_true] at h
    simp [List.takeWhile_cons, h.1, ih h.2]

theorem coreMatch_space (l : List Char) : coreMatch (' ' :: l) = none := rfl

/-- Scanning skips over a run of spaces that does not start a match: the
scanner carries the skipped run into `seen`. -/
theorem execGo_spaces :
    ∀ (pre seen l : List Char), pre.all (· == ' ') = true →
      execGo seen (pre ++ l) = execGo (pre.reverse ++ seen) l := by
  intro pre
  induction pre with
  | nil => intro seen l _; simp
  | cons c cs ih =>
    intro seen l hall
    simp only [List.all_cons, Bool.and_eq_true, beq_iff_eq] at hall
    obtain ⟨hc, hcs⟩ := hall
    subst hc
    rw [List.cons_append, execGo, coreMatch_space,
      ih (' ' :: seen) l (by simpa using hcs)]
    simp

/-- The core pattern matches a rendered line body, recovering the closed
marker, the canonical digits and the title. -/
theorem coreMatch_render (flag : Bool) (n : Nat) (title : List Char)
    (ht : title.all (fun c => !isTerm c) = true)
    (hh : title.head? ≠ some ' ') :
    coreMatch ('-' :: ' ' :: '[' :: (if flag then 'x' else ' ') :: ']' :: ' ' ::
        '#' :: (natDigits n ++ ' ' :: title)) =
      some ((if flag then 'x' else ' '), natDigits n, title) := by
  have hterm : isTerm (if flag then 'x' else ' ') = false := by
    cases flag <;> decide
  have hdig := natDigits_digits n
  rw [coreMatch, hterm]
  simp only [Bool.false_eq_true, if_false]
  rw [takeWhile_all_append hdig, dropWhile_all_append hdig]
  have h1 : (' ' :: title).takeWhile (·.isDigit) = [] := by
    simp [List.takeWhile_cons]
  have h2 : (' ' :: title).dropWhile (·.isDigit) = ' ' :: title := by
    simp [List.dropWhile_cons]
  rw [h1, h2, List.append_nil]
  have h3 : (' ' :: title).dropWhile (· == ' ') = title := by
    rw [List.dropWhile_cons]
    simp only [beq_self_eq_true, if_true]
    cases title with
    | nil => simp
    | cons c cs =>
      simp only [List.head?_cons, ne_eq, Option.some.injEq] at hh
      simp [List.dropWhile_cons, hh]
  rw [h3, takeWhile_eq_self_of_all ht, if_neg (natDigits_ne_nil n)]

/-- Parsing a rendered checklist line recovers exactly the rendered indent,
marker, digits and title. -/
theorem taskExec_render (pre : List Char) (flag : Bool) (n : Nat)
    (title : List Char)
    (hp : pre.all (· == ' ') = true)
    (ht : title.all (fun c => !isTerm c) = true)
    (hh : title.head? ≠ some ' ') :
    taskExec (String.mk (renderLine pre flag n title)) =
      some ⟨pre, (if flag then 'x' else ' '), natDigits n, title⟩ := by
  unfold taskExec renderLine
  show execGo [] (pre ++ _) = _
  rw [execGo_spaces pre [] _ hp, List.append_nil, execGo,
    coreMatch_render flag n title ht hh]
  have : (pre.reverse.takeWhile (· == ' ')).reverse = pre := by
    rw [takeWhile_eq_self_of_all (by simpa using hp), List.reverse_reverse]
  rw [this]

/-- C1: for every valid checklist line (spaces indent, status marker x or
blank, canonical task number, title with no leading space and no line
terminators), rendering the parse reproduces the line exactly. -/
theorem render_parse_roundtrip (pre : List Char) (flag : Bool) (n : Nat)
    (title : List Char)
    (hp : pre.all (· == ' ') = true)
    (ht : title.all (fun c => !isTerm c) = true)
    (hh : title.head? ≠ some ' ') :
    renderOfParse (String.mk (renderLine pre flag n title)) =
      some (String.mk (renderLine pre flag n title)) := by
  unfold renderOfParse
  rw [taskExec_render pre flag n title hp ht hh]
  simp only [Option.map_some']
  congr 2
  rw [digitsVal_natDigits]
  cases flag <;> rfl

/-- Witness for C1 at the concrete line with two spaces of indent, closed
marker, number 12 and title Fix the bug. -/
theorem render_parse_roundtrip_witness :
    renderOfParse (String.mk (renderLine "  ".data true 12 "Fix the bug".data)) =
      some (String.mk (renderLine "  ".data true 12 "Fix the bug".data)) :=
  render_parse_roundtrip "  ".data true 12 "Fix the bug".data
    (by decide) (by decide) (by decide)

/- ### C8: the regex is unanchored -/

/-- C8 counterexample: a line whose checkbox pattern is preceded by other
text still parses (the source regex has no anchor); the captured indent is
the space run immediately before the hyphen, not a prefix of the line. -/
theorem taskExec_unanchored_cex :
    taskExec "see also - [x] #12 Some task" =
      some ⟨[' '], 'x', ['1', '2'], "Some task".data⟩ := by
  decide

/-- C8 amended: the parser yields a match exactly when the core pattern
(dash, box with one non-terminator character, hash, at least one digit)
occurs at some position of the line. -/
theorem taskExec_isSome_iff_core :
    ∀ line : String,
      (taskExec line).isSome =
        line.data.tails.any (fun s => (coreMatch s).isSome) := by
  intro line
  unfold taskExec
  generalize line.data = l
  suffices h : ∀ (l seen : List Char),
      (execGo seen l).isSome = l.tails.any (fun s => (coreMatch s).isSome) by
    exact h l []
  intro l
  induction l with
  | nil => intro seen; simp [execGo, coreMatch]
  | cons c rest ih =>
    intro seen
    rw [execGo]
    cases h : coreMatch (c :: rest) with
    | some v => simp [List.tails, h]
    | none => simp [List.tails, h, ih]

/-- The captured indent of any successful parse is a run of spaces. -/
theorem execGo_pre_spaces :
    ∀ (l seen : List Char) (m : TaskMatch),
      execGo seen l = some m → m.pre.all (· == ' ') = true := by
  intro l
  induction l with
  | nil => intro seen m h; simp [execGo] at h
  | cons c rest ih =>
    intro seen m h
    rw [execGo] at h
    cases hc : coreMatch (c :: rest) with
    | some v =>
      rw [hc] at h
      obtain ⟨cl, digits, title⟩ := v
      simp only [Option.some.injEq] at h
      subst h
      simp only [List.all_eq_true, List.mem_reverse]
      intro x hx
      have hp := List.mem_takeWhile_imp hx
      simpa using hp
    | none =>
      rw [hc] at h
      exact ih (c :: seen) m h

theorem taskExec_pre_spaces (line : String) (m : TaskMatch)
    (h : taskExec line = some m) : m.pre.all (· == ' ') = true :=
  execGo_pre_spaces line.data [] m h

/- ### The data model: task records, external calls, mutation traces -/

/-- Snapshot of a task issue as the issue store returns it: number, title
and state string (the source compares the state against the literal
"closed", source line 337). -/
structure TaskRecord where
  number : Nat
  title : String
  state : String
deriving Repr, DecidableEq

/-- State-changing calls the engine issues against the issue store, in the
order they are applied.  Reads (fetching a task) are not mutations. -/
inductive Mutation where
  | setState (n : Nat) (state : String)
  | addComment (n : Nat) (text : String)
  | setBody (n : Nat) (text : String)
deriving Repr, DecidableEq

/-- Every call that crosses the system boundary (reads included), used by
the failure oracle: a call `c` with `fails c = true` raises, as a rejected
octokit promise does. -/
inductive Call where
  | getTask (n : Nat)
  | setState (n : Nat) (state : String)
  | addComment (n : Nat) (text : String)
  | setBody (n : Nat) (text : String)
deriving Repr, DecidableEq

/-- The issue store's task table, read by issue number. -/
def Store : Type := Nat → Option TaskRecord

/-- Applying one mutation to the task table: only a state update changes a
task record; comments and epic-body updates do not. -/
def applyMut (store : Store) : Mutation → Store
  | Mutation.setState n s => fun k =>
      if k = n then (store k).map (fun t => { t with state := s }) else store k
  | Mutation.addComment _ _ => store
  | Mutation.setBody _ _ => store

def applyMuts (store : Store) (ms : List Mutation) : Store :=
  ms.foldl applyMut store

/-- Result of `updateTask` (source line 319): `null` for nothing to do,
`failed` for the source's `return false` after a caught collaborator
failure, `ok` with the new line and the comment to post on the Epic. -/
inductive URes where
  | null
  | failed
  | ok (line : String) (comment : Option String)
deriving Repr, DecidableEq

/-- JavaScript state string for a closed flag. -/
def stateStr (closed : Bool) : String :=
  if closed then "closed" else "open"

/-- Comment for a combined title and state refresh in the task-driven
direction (source line 357). -/
def taskAuthBothComment (n : Nat) (closed : Bool) : String :=
  "`EpicBot` refreshed the title for task #" ++ natStr n ++
    " and marked it as `" ++ stateStr closed ++ "`."

/-- Comment for a state-only refresh in the task-driven direction (source
line 359). -/
def taskAuthStateComment (n : Nat) (closed : Bool) : String :=
  "`EpicBot` marked task #" ++ natStr n ++ " as `" ++ stateStr closed ++ "`."

/-- Comment for a title-only refresh (source lines 361 and 399). -/
def titleRefreshComment (n : Nat) : String :=
  "`EpicBot` refreshed the title for task #" ++ natStr n ++ "."

/-- Comment posted on the task itself when the Epic's checkbox drives its
state (source line 384). -/
def taskStateChangeComment (epicN : Nat) (closed : Bool) : String :=
  "`EpicBot` " ++ (if closed then "closed" else "re-opened") ++
    " this issue following changes in Epic #" ++ natStr epicN ++ "."

/-- Comment for a combined change in the Epic-driven direction (source line
395). -/
def epicAuthBothComment (n : Nat) (closed : Bool) : String :=
  "`EpicBot` " ++ (if closed then "closed" else "opened") ++ " task #" ++
    natStr n ++ " following changes in the Epic, and refreshed its title."

/-- Comment posted on a completed Epic before closing it (source line 451). -/
def closeEpicComment : String :=
  "`EpicBot` closed this Epic as all tasks are complete."

/-- Model of `updateTask(epicNumber, taskLine, taskIssue, taskIsTruth)`
(source lines 319-407), the task reconciler.  Returns the result value and
the list of successfully applied issue-store mutations.  Notes kept from
the source:

* the number comparison is JavaScript loose equality between the digit
  capture and the record number (line 328), modelled by `digitsVal`;
* in both directions the rebuilt line takes its title from the task record
  (lines 354 and 393);
* in the Epic-authoritative direction with only the state differing, the
  source builds a comment string on line 397 but never assigns it
  (a bare expression statement), so the returned comment is `none`;
* a collaborator failure inside this function is caught and turned into
  `return false` (lines 374-377, 386-389), modelled by `URes.failed`. -/
def updateTask (fails : Call → Bool) (epicN : Nat) (taskLine : String)
    (task : TaskRecord) (taskIsTruth : Bool) : URes × List Mutation :=
  match taskExec taskLine with
  | none => (URes.null, [])
  | some m =>
    if !(digitsVal m.number == task.number) then (URes.null, [])
    else
      let epicIssueClosed := m.closed == 'x'
      let taskIssueClosed := task.state == "closed"
      let updateState := !(epicIssueClosed == taskIssueClosed)
      let updateTitle := !(m.title == task.title.data)
      if !updateTitle && !updateState then (URes.null, [])
      else if taskIsTruth then
        let newLine :=
          String.mk (renderLine m.pre taskIssueClosed task.number task.title.data)
        let comment :=
          if updateState && updateTitle then
            some (taskAuthBothComment task.number taskIssueClosed)
          else if updateState then
            some (taskAuthStateComment task.number taskIssueClosed)
          else if updateTitle then some (titleRefreshComment task.number)
          else none
        (URes.ok newLine comment, [])
      else
        let newLine :=
          String.mk (renderLine m.pre epicIssueClosed task.number task.title.data)
        let comment :=
          if updateState && updateTitle then
            some (epicAuthBothComment task.number epicIssueClosed)
          else if updateState then none
          else if updateTitle then some (titleRefreshComment task.number)
          else none
        if updateState then
          if fails (Call.setState task.number (stateStr epicIssueClosed)) then
            (URes.failed, [])
          else
            let ms := [Mutation.setState task.number (stateStr epicIssueClosed)]
            if fails (Call.addComment task.number
                (taskStateChangeComment epicN epicIssueClosed)) then
              (URes.failed, ms)
            else
              (URes.ok newLine comment,
               ms ++ [Mutation.addComment task.number
                 (taskStateChangeComment epicN epicIssueClosed)])
        else (URes.ok newLine comment, [])

/- ### C7: reconcile is a no-op when nothing differs -/

/-- C7: when the line parses, the numbers match, the closed flag agrees
with the record's state and the titles agree, the reconciler returns null
and issues no mutation, in both directions and under any failure oracle. -/
theorem reconcile_noop (fails : Call → Bool) (epicN : Nat) (line : String)
    (task : TaskRecord) (isTruth : Bool) (m : TaskMatch)
    (hm : taskExec line = some m)
    (hn : digitsVal m.number = task.number)
    (hs : (m.closed == 'x') = (task.state == "closed"))
    (ht : m.title = task.title.data) :
    updateTask fails epicN line task isTruth = (URes.null, []) := by
  unfold updateTask
  rw [hm]
  simp [hn, hs, ht]

/-- Witness for C7: the closed line for task 5 against a closed task record
with the same title, in the task-driven direction. -/
theorem reconcile_noop_witness :
    updateTask (fun _ => false) 3 "- [x] #5 Done" ⟨5, "Done", "closed"⟩ true =
      (URes.null, []) :=
  reconcile_noop (fun _ => false) 3 "- [x] #5 Done" ⟨5, "Done", "closed"⟩ true
    ⟨[], 'x', ['5'], "Done".data⟩ (by decide) (by decide) (by decide) (by decide)

/- ### C6: the concrete task-driven scenario -/

/-- C6: reconciling the open line for task 42 with title Old title against
the closed record titled New title, in the task-driven direction, rewrites
the line to closed with the new title and produces the single combined
comment about both the title refresh and the state change. -/
theorem reconcile_task_authoritative_scenario :
    updateTask (fun _ => false) 7 "- [ ] #42 Old title"
        ⟨42, "New title", "closed"⟩ true =
      (URes.ok "- [x] #42 New title"
        (some "`EpicBot` refreshed the title for task #42 and marked it as `closed`."),
       []) := by
  decide

/- ### C2: the Epic-authoritative direction -/

/-- C2 counterexample: with matching numbers and a title difference (states
equal), the Epic-authoritative reconcile does not leave the line unchanged;
the rebuilt line takes the title from the task record (source line 393). -/
theorem epic_authoritative_changes_line_cex :
    (updateTask (fun _ => false) 7 "- [ ] #42 Old title"
        ⟨42, "New title", "open"⟩ false).1 =
      URes.ok "- [ ] #42 New title"
        (some "`EpicBot` refreshed the title for task #42.") ∧
    "- [ ] #42 New title" ≠ "- [ ] #42 Old title" := by
  constructor
  · decide
  · decide

/-- C2 amended: in the Epic-authoritative direction, when the line is a
canonical render whose title already agrees with the task record and only
the state differs, the returned line is exactly the input line, and the
reconciler signals the task state mutation together with the comment on the
task; the comment returned for the Epic is none (source line 397 builds it
but never assigns it). -/
theorem epic_authoritative_state_push (epicN : Nat) (pre : List Char)
    (flag : Bool) (task : TaskRecord)
    (hp : pre.all (· == ' ') = true)
    (ht : task.title.data.all (fun c => !isTerm c) = true)
    (hh : task.title.data.head? ≠ some ' ')
    (hs : (task.state == "closed") = !flag) :
    updateTask (fun _ => false) epicN
        (String.mk (renderLine pre flag task.number task.title.data)) task
        false =
      (URes.ok (String.mk (renderLine pre flag task.number task.title.data))
        none,
       [Mutation.setState task.number (stateStr flag),
        Mutation.addComment task.number (taskStateChangeComment epicN flag)]) := by
  unfold updateTask
  rw [taskExec_render pre flag task.number task.title.data hp ht hh]
  have hx : ((if flag then 'x' else ' ') == 'x') = flag := by
    cases flag <;> rfl
  simp [hx, hs, digitsVal_natDigits]

/-- Witness for C2: pushing the closed checkbox of the canonical line for
task 8 onto the open task record. -/
theorem epic_authoritative_state_push_witness :
    updateTask (fun _ => false) 4
        (String.mk (renderLine [] true 8 "Ship it".data))
        ⟨8, "Ship it", "open"⟩ false =
      (URes.ok (String.mk (renderLine [] true 8 "Ship it".data)) none,
       [Mutation.setState 8 (stateStr true),
        Mutation.addComment 8 (taskStateChangeComment 4 true)]) :=
  epic_authoritative_state_push 4 [] true ⟨8, "Ship it", "open"⟩
    (by decide) (by decide) (by decide) (by decide)

/- ### Splitting a body into lines and joining it back -/

/-- Model of `String.prototype.startsWith`. -/
def strStartsWith (s p : String) : Bool :=
  p.data.isPrefixOf s.data

/-- Model of `String.prototype.endsWith`. -/
def strEndsWith (s p : String) : Bool :=
  p.data.isSuffixOf s.data

/-- Model of `body.split(/\r?\n/g)` (source lines 85, 270, 414): a bare
carriage return does not split, a line feed does, and a carriage return
immediately followed by a line feed is consumed together with it. -/
def splitLinesGo : List Char → List Char → List (List Char)
  | acc, [] => [acc.reverse]
  | acc, '\n' :: rest => acc.reverse :: splitLinesGo [] rest
  | acc, '\r' :: '\n' :: rest => acc.reverse :: splitLinesGo [] rest
  | acc, c :: rest => splitLinesGo (c :: acc) rest

def splitLines (s : String) : List String :=
  (splitLinesGo [] s.data).map String.mk

/-- Model of `body.join("\r\n")` (source lines 159, 310). -/
def joinLines : List (List Char) → List Char
  | [] => []
  | [l] => l
  | l :: l2 :: rest => l ++ '\r' :: '\n' :: joinLines (l2 :: rest)

def joinCRLF (ls : List String) : String :=
  String.mk (joinLines (ls.map String.data))

/-- A string free of line feeds, which is what every split piece looks
like. -/
def noNL (s : String) : Bool :=
  s.data.all (fun c => !(c == '\n'))

theorem splitLinesGo_ne_nil (acc l : List Char) : splitLinesGo acc l ≠ [] := by
  induction acc, l using splitLinesGo.induct <;> simp_all [splitLinesGo]

theorem splitLines_ne_nil (s : String) : splitLines s ≠ [] := by
  unfold splitLines
  simp [splitLinesGo_ne_nil]

theorem splitLinesGo_all_noNL (acc l : List Char)
    (hacc : acc.all (fun c => !(c == '\n')) = true) :
    ∀ piece ∈ splitLinesGo acc l, piece.all (fun c => !(c == '\n')) = true := by
  induction acc, l using splitLinesGo.induct <;> simp_all [splitLinesGo] <;>
    assumption

theorem splitLines_all_noNL (s : String) :
    ∀ l ∈ splitLines s, noNL l = true := by
  intro l hl
  unfold splitLines at hl
  rcases List.mem_map.mp hl with ⟨piece, hmem, hmk⟩
  subst hmk
  exact splitLinesGo_all_noNL [] s.data (by simp) piece hmem

theorem splitLinesGo_cons_other (acc : List Char) (c : Char) (rest : List Char)
    (h1 : ¬ c = '\n') (h2 : ∀ r2, ¬ (c = '\r' ∧ rest = '\n' :: r2)) :
    splitLinesGo acc (c :: rest) = splitLinesGo (c :: acc) rest := by
  rw [splitLinesGo.eq_def]
  split <;> simp_all

theorem splitLinesGo_crlf (acc l : List Char) :
    splitLinesGo acc ('\r' :: '\n' :: l) = acc.reverse :: splitLinesGo [] l :=
  rfl

theorem splitLinesGo_last : ∀ (l acc : List Char),
    l.all (fun c => !(c == '\n')) = true →
    splitLinesGo acc l = [acc.reverse ++ l] := by
  intro l
  induction l with
  | nil => intro acc _; simp [splitLinesGo]
  | cons c cs ih =>
    intro acc hall
    simp only [List.all_cons, Bool.and_eq_true, Bool.not_eq_true',
      beq_eq_false_iff_ne, ne_eq] at hall
    rcases hall with ⟨hc, hcs⟩
    by_cases hr : c = '\r'
    · subst hr
      cases cs with
      | nil =>
        rw [splitLinesGo_cons_other _ _ _ (by decide) (by simp)]
        simp [splitLinesGo]
      | cons d ds =>
        have hd : ¬ d = '\n' := by
          simp only [List.all_cons, Bool.and_eq_true, Bool.not_eq_true',
            beq_eq_false_iff_ne, ne_eq] at hcs
          exact hcs.1
        rw [splitLinesGo_cons_other _ _ _ (by decide) (by simp [hd])]
        rw [ih _ hcs]
        simp
    · rw [splitLinesGo_cons_other _ _ _ hc (by simp [hr])]
      rw [ih _ hcs]
      simp

theorem splitLinesGo_append : ∀ (l acc rest : List Char),
    l.all (fun c => !(c == '\n')) = true →
    splitLinesGo acc (l ++ '\r' :: '\n' :: rest) =
      (acc.reverse ++ l) :: splitLinesGo [] rest := by
  intro l
  induction l with
  | nil => intro acc rest _; simp [splitLinesGo_crlf]
  | cons c cs ih =>
    intro acc rest hall
    simp only [List.all_cons, Bool.and_eq_true, Bool.not_eq_true',
      beq_eq_false_iff_ne, ne_eq] at hall
    rcases hall with ⟨hc, hcs⟩
    rw [List.cons_append]
    have hnext : ∀ r2, ¬ (c = '\r' ∧ cs ++ '\r' :: '\n' :: rest = '\n' :: r2) := by
      intro r2 hand
      rcases hand with ⟨hcr, heq⟩
      cases cs with
      | nil => simp at heq
      | cons d ds =>
        simp only [List.cons_append, List.cons.injEq] at heq
        simp only [List.all_cons, Bool.and_eq_true, Bool.not_eq_true',
          beq_eq_false_iff_ne, ne_eq] at hcs
        exact hcs.1 heq.1
    rw [splitLinesGo_cons_other _ _ _ hc hnext, ih _ _ hcs]
    simp

/-- Splitting is a left inverse of joining for nonempty lists of lines that
contain no line feeds. -/
theorem splitLines_joinCRLF : ∀ ls : List String, ls ≠ [] →
    (∀ l ∈ ls, noNL l = true) → splitLines (joinCRLF ls) = ls := by
  intro ls
  induction ls with
  | nil => intro h; exact absurd rfl h
  | cons l rest ih =>
    intro _ hall
    cases rest with
    | nil =>
      show splitLines (String.mk (joinLines [l.data])) = [l]
      unfold splitLines
      show (splitLinesGo [] l.data).map String.mk = [l]
      rw [splitLinesGo_last l.data [] (hall l (by simp))]
      simp
    | cons l2 rest2 =>
      show splitLines (String.mk (joinLines (l.data :: l2.data :: _))) = _
      unfold splitLines
      rw [joinLines]
      show (splitLinesGo [] (l.data ++ '\r' :: '\n' ::
        joinLines ((l2 :: rest2).map String.data))).map String.mk = _
      rw [splitLinesGo_append l.data []
        (joinLines ((l2 :: rest2).map String.data)) (hall l (by simp))]
      have hrec := ih (by simp) (fun x hx => hall x (by simp [hx]))
      unfold splitLines joinCRLF at hrec
      simp only [List.map_cons, List.nil_append] at hrec ⊢
      rw [hrec]
      simp

/- ### The workload section scan -/

/-- The matched checklist lines that the common scan of the source visits
(source lines 87-105, 272-294, 415-439): headings toggle the in-workload
flag, a heading that does not end with the marker terminates the section,
and inside the section every line is offered to the task expression. -/
def workloadScan (marker : String) : List String → Bool → List TaskMatch
  | [], _ => []
  | line :: rest, inW =>
    if strStartsWith line "#" then
      if strEndsWith line marker then workloadScan marker rest true
      else if inW then []
      else workloadScan marker rest inW
    else if !inW then workloadScan marker rest inW
    else
      match taskExec line with
      | none => workloadScan marker rest inW
      | some m => m :: workloadScan marker rest inW

/-- The task numbers of the matched workload lines, in scan order. -/
def matchedNums (marker : String) (lines : List String) (inW : Bool) :
    List Nat :=
  (workloadScan marker lines inW).map fun m => digitsVal m.number

/-- Model of the scan inside `closeEpicIfComplete` (source lines 412-444):
count matched lines, return false at the first open one, and report
complete only when the count is nonzero at the end. -/
def completeScan (marker : String) : List String → Bool → Nat → Bool
  | [], _, nTasks => !(nTasks == 0)
  | line :: rest, inW, nTasks =>
    if strStartsWith line "#" then
      if strEndsWith line marker then completeScan marker rest true nTasks
      else if inW then !(nTasks == 0)
      else completeScan marker rest inW nTasks
    else if !inW then completeScan marker rest inW nTasks
    else
      match taskExec line with
      | none => completeScan marker rest inW nTasks
      | some m =>
        if !(m.closed == 'x') then false
        else completeScan marker rest inW (nTasks + 1)

/-- The pure completion decision of `closeEpicIfComplete`. -/
def isComplete (marker : String) (body : String) : Bool :=
  completeScan marker (splitLines body) false 0

theorem completeScan_eq_true_iff (marker : String) :
    ∀ (lines : List String) (inW : Bool) (k : Nat),
      completeScan marker lines inW k = true ↔
        ((k ≠ 0 ∨ workloadScan marker lines inW ≠ []) ∧
          ∀ m ∈ workloadScan marker lines inW, m.closed = 'x') := by
  intro lines
  induction lines with
  | nil =>
    intro inW k
    simp [completeScan, workloadScan]
  | cons line rest ih =>
    intro inW k
    by_cases h1 : strStartsWith line "#" = true
    · by_cases h2 : strEndsWith line marker = true
      · simp only [completeScan, workloadScan, h1, h2, if_true]
        exact ih true k
      · cases inW with
        | true => simp [completeScan, workloadScan, h1, h2]
        | false =>
          simp only [completeScan, workloadScan, h1, h2, Bool.false_eq_true,
            if_false]
          exact ih false k
    · cases inW with
      | false =>
        simp only [completeScan, workloadScan, h1, Bool.false_eq_true,
          if_false, Bool.not_false, if_true]
        exact ih false k
      | true =>
        cases hm : taskExec line with
        | none =>
          simp only [completeScan, workloadScan, h1, Bool.false_eq_true,
            if_false, Bool.not_true, hm]
          exact ih true k
        | some m =>
          by_cases hx : m.closed = 'x'
          · have hxb : (m.closed == 'x') = true := by simp [hx]
            simp only [completeScan, workloadScan, h1, Bool.false_eq_true,
              if_false, Bool.not_true, hm, hxb, Bool.not_true]
            rw [ih true (k + 1)]
            simp [hx]
          · have hxb : (m.closed == 'x') = false := by simp [hx]
            simp only [completeScan, workloadScan, h1, Bool.false_eq_true,
              if_false, Bool.not_true, hm, hxb, Bool.not_false]
            simp [hx]

/-- C5: the completion evaluation is true exactly when the workload scan
finds at least one matched checklist line and every matched line carries
the closed marker; in particular it is false whenever no line matches, and
false as soon as one matched line is open. -/
theorem isComplete_iff (marker : String) (body : String) :
    isComplete marker body = true ↔
      (workloadScan marker (splitLines body) false ≠ [] ∧
        ∀ m ∈ workloadScan marker (splitLines body) false, m.closed = 'x') := by
  unfold isComplete
  rw [completeScan_eq_true_iff]
  simp

/- ### The task-driven single-line rewrite (updateTaskInEpic) -/

/-- Index (into the line list) of the first matched workload line whose
number loosely equals the given task number, mirroring the scan of
`updateTaskInEpic` (source lines 272-294). -/
def firstMatchIdx (marker : String) (n : Nat) : List String → Bool → Option Nat
  | [], _ => none
  | line :: rest, inW =>
    if strStartsWith line "#" then
      if strEndsWith line marker then
        (firstMatchIdx marker n rest true).map (· + 1)
      else if inW then none
      else (firstMatchIdx marker n rest inW).map (· + 1)
    else if !inW then (firstMatchIdx marker n rest inW).map (· + 1)
    else
      match taskExec line with
      | none => (firstMatchIdx marker n rest inW).map (· + 1)
      | some m =>
        if !(digitsVal m.number == n) then
          (firstMatchIdx marker n rest inW).map (· + 1)
        else some 0

/-- Loop of `updateTaskInEpic` (source lines 272-313): find the first
matched workload line whose number matches the task, reconcile it in the
task-authoritative direction, splice the new line in and stop.  Returns
none when the task is not found, when the section ends at a heading, or
when the matched line needs no change (the source returns null in all
three cases). -/
def utieGo (marker : String) (epicN : Nat) (task : TaskRecord) :
    List String → Bool → Option (List String × Option String)
  | [], _ => none
  | line :: rest, inW =>
    if strStartsWith line "#" then
      if strEndsWith line marker then
        (utieGo marker epicN task rest true).map fun p => (line :: p.1, p.2)
      else if inW then none
      else (utieGo marker epicN task rest inW).map fun p => (line :: p.1, p.2)
    else if !inW then
      (utieGo marker epicN task rest inW).map fun p => (line :: p.1, p.2)
    else
      match taskExec line with
      | none => (utieGo marker epicN task rest inW).map fun p => (line :: p.1, p.2)
      | some m =>
        if !(digitsVal m.number == task.number) then
          (utieGo marker epicN task rest inW).map fun p => (line :: p.1, p.2)
        else
          match (updateTask (fun _ => false) epicN line task true).1 with
          | URes.ok newLine comment => some (newLine :: rest, comment)
          | _ => none

/-- Model of `updateTaskInEpic(epicNumber, epicBody, taskIssue)` (source
lines 268-316).  The reconciliation inside it runs with `taskIsTruth` set
to true and performs no issue-store call, so no failure oracle is needed. -/
def updateTaskInEpic (marker : String) (epicN : Nat) (epicBody : String)
    (task : TaskRecord) : Option (String × Option String) :=
  (utieGo marker epicN task (splitLines epicBody) false).map fun p =>
    (joinCRLF p.1, p.2)

/-- A successful task-authoritative reconcile rebuilds the line from the
captured indent, the record's state, number and title. -/
theorem updateTask_true_ok (fails : Call → Bool) (epicN : Nat) (line : String)
    (task : TaskRecord) (L : String) (c : Option String)
    (h : (updateTask fails epicN line task true).1 = URes.ok L c) :
    ∃ m, taskExec line = some m ∧
      L = String.mk (renderLine m.pre (task.state == "closed") task.number
        task.title.data) := by
  cases hm : taskExec line with
  | none => rw [updateTask, hm] at h; simp at h
  | some m =>
    refine ⟨m, rfl, ?_⟩
    by_cases h1 : (digitsVal m.number == task.number) = true
    · by_cases hT : (m.title == task.title.data) = true
      · by_cases hS : ((m.closed == 'x') == (task.state == "closed")) = true
        · simp [updateTask, hm, h1, hT, hS] at h
        · simp [updateTask, hm, h1, hT, hS] at h
          exact h.1.symm
      · by_cases hS : ((m.closed == 'x') == (task.state == "closed")) = true
        · simp [updateTask, hm, h1, hT, hS] at h
          exact h.1.symm
        · simp [updateTask, hm, h1, hT, hS] at h
          exact h.1.symm
    · simp [updateTask, hm, h1] at h

theorem noNL_renderLine (pre : List Char) (flag : Bool) (n : Nat)
    (title : List Char) (hp : pre.all (· == ' ') = true)
    (ht : title.all (fun c => !(c == '\n')) = true) :
    (renderLine pre flag n title).all (fun c => !(c == '\n')) = true := by
  have hdig : (natDigits n).all (fun c => !(c == '\n')) = true := by
    refine natDigits_all ?_ n
    intro d hd
    interval_cases d <;> decide
  simp only [List.all_eq_true] at hp ht hdig ⊢
  intro c hc
  unfold renderLine at hc
  simp only [List.mem_append, List.mem_cons] at hc
  rcases hc with hc | hc | hc | hc | hc | hc | hc | hc | hc
  · have := hp c hc
    simp only [beq_iff_eq] at this
    simp [this]
  · subst hc; decide
  · subst hc; decide
  · subst hc; decide
  · subst hc; cases flag <;> decide
  · subst hc; decide
  · subst hc; decide
  · subst hc; decide
  · rcases hc with hd | hsp | htl
    · exact hdig c hd
    · subst hsp; decide
    · exact ht c htl

/-- Structure of a successful `utieGo` pass: exactly the first matching
workload line is replaced, and the replacement is free of line feeds
whenever the task title is. -/
theorem utieGo_set (marker : String) (epicN : Nat) (task : TaskRecord)
    (hnl : task.title.data.all (fun c => !(c == '\n')) = true) :
    ∀ (lines : List String) (inW : Bool) (ls : List String) (c : Option String),
      utieGo marker epicN task lines inW = some (ls, c) →
      ∃ i L, firstMatchIdx marker task.number lines inW = some i ∧
        i < lines.length ∧ ls = lines.set i L ∧ noNL L = true := by
  intro lines
  induction lines with
  | nil => intro inW ls c h; simp [utieGo] at h
  | cons line rest ih =>
    intro inW ls c h
    by_cases h1 : strStartsWith line "#" = true
    · by_cases h2 : strEndsWith line marker = true
      · cases hrec : utieGo marker epicN task rest true with
        | none => rw [utieGo] at h; simp [h1, h2, hrec] at h
        | some p =>
          obtain ⟨ls', c'⟩ := p
          rw [utieGo] at h
          simp only [h1, h2, if_true, hrec, Option.map_some',
            Option.some.injEq, Prod.mk.injEq] at h
          obtain ⟨rfl, rfl⟩ := h
          rcases ih _ _ _ hrec with ⟨i, L, hidx, hlen, hset, hnl2⟩
          refine ⟨i + 1, L, ?_, by simpa using hlen, ?_, hnl2⟩
          · rw [firstMatchIdx]; simp [h1, h2, hidx]
          · rw [hset]; rfl
      · cases inW with
        | true => rw [utieGo] at h; simp [h1, h2] at h
        | false =>
          cases hrec : utieGo marker epicN task rest false with
          | none => rw [utieGo] at h; simp [h1, h2, hrec] at h
          | some p =>
            obtain ⟨ls', c'⟩ := p
            rw [utieGo] at h
            simp only [h1, h2, Bool.false_eq_true, if_false, hrec,
              Option.map_some', Option.some.injEq, Prod.mk.injEq] at h
            obtain ⟨rfl, rfl⟩ := h
            rcases ih _ _ _ hrec with ⟨i, L, hidx, hlen, hset, hnl2⟩
            refine ⟨i + 1, L, ?_, by simpa using hlen, ?_, hnl2⟩
            · rw [firstMatchIdx]; simp [h1, h2, hidx]
            · rw [hset]; rfl
    · cases inW with
      | false =>
        cases hrec : utieGo marker epicN task rest false with
        | none => rw [utieGo] at h; simp [h1, hrec] at h
        | some p =>
          obtain ⟨ls', c'⟩ := p
          rw [utieGo] at h
          simp only [h1, Bool.false_eq_true, if_false, Bool.not_false, if_true,
            hrec, Option.map_some', Option.some.injEq, Prod.mk.injEq] at h
          obtain ⟨rfl, rfl⟩ := h
          rcases ih _ _ _ hrec with ⟨i, L, hidx, hlen, hset, hnl2⟩
          refine ⟨i + 1, L, ?_, by simpa using hlen, ?_, hnl2⟩
          · rw [firstMatchIdx]; simp [h1, hidx]
          · rw [hset]; rfl
      | true =>
        cases hm : taskExec line with
        | none =>
          cases hrec : utieGo marker epicN task rest true with
          | none => rw [utieGo] at h; simp [h1, hm, hrec] at h
          | some p =>
            obtain ⟨ls', c'⟩ := p
            rw [utieGo] at h
            simp only [h1, Bool.false_eq_true, if_false, Bool.not_true, hm,
              hrec, Option.map_some', Option.some.injEq, Prod.mk.injEq] at h
            obtain ⟨rfl, rfl⟩ := h
            rcases ih _ _ _ hrec with ⟨i, L, hidx, hlen, hset, hnl2⟩
            refine ⟨i + 1, L, ?_, by simpa using hlen, ?_, hnl2⟩
            · rw [firstMatchIdx]; simp [h1, hm, hidx]
            · rw [hset]; rfl
        | some m =>
          by_cases hn : (digitsVal m.number == task.number) = true
          · cases hu : (updateTask (fun _ => false) epicN line task true).1 with
            | ok newLine comment =>
              rw [utieGo] at h
              simp only [h1, Bool.false_eq_true, if_false, Bool.not_true, hm,
                hn, Bool.not_true, hu, Option.some.injEq, Prod.mk.injEq] at h
              obtain ⟨rfl, rfl⟩ := h
              rcases updateTask_true_ok _ _ _ _ _ _ hu with ⟨m2, hm2, hL⟩
              refine ⟨0, newLine, ?_, by simp, rfl, ?_⟩
              · rw [firstMatchIdx]; simp [h1, hm, hn]
              · rw [hL]
                exact noNL_renderLine _ _ _ _
                  (taskExec_pre_spaces line m2 hm2) hnl
            | null =>
              rw [utieGo] at h
              simp [h1, hm, hn, hu] at h
            | failed =>
              rw [utieGo] at h
              simp [h1, hm, hn, hu] at h
          · cases hrec : utieGo marker epicN task rest true with
            | none => rw [utieGo] at h; simp [h1, hm, hn, hrec] at h
            | some p =>
              obtain ⟨ls', c'⟩ := p
              rw [utieGo] at h
              simp only [h1, Bool.false_eq_true, if_false, Bool.not_true, hm,
                hn, Bool.not_false, if_true, hrec, Option.map_some',
                Option.some.injEq, Prod.mk.injEq] at h
              obtain ⟨rfl, rfl⟩ := h
              rcases ih _ _ _ hrec with ⟨i, L, hidx, hlen, hset, hnl2⟩
              refine ⟨i + 1, L, ?_, by simpa using hlen, ?_, hnl2⟩
              · rw [firstMatchIdx]; simp [h1, hm, hn, hidx]
              · rw [hset]; rfl

/-- C10: when the task-driven rewrite succeeds on a body, the returned
body's line sequence is the input sequence with exactly the first matching
workload line replaced; every other line, including any later duplicate of
the same task number, is unchanged. -/
theorem task_driven_first_match_only (marker : String) (epicN : Nat)
    (body : String) (task : TaskRecord) (nb : String) (c : Option String)
    (hnl : task.title.data.all (fun x => !(x == '\n')) = true)
    (h : updateTaskInEpic marker epicN body task = some (nb, c)) :
    ∃ i L, firstMatchIdx marker task.number (splitLines body) false = some i ∧
      splitLines nb = (splitLines body).set i L ∧
      ∀ j, j ≠ i → (splitLines nb).getD j "" = (splitLines body).getD j "" := by
  unfold updateTaskInEpic at h
  rcases Option.map_eq_some'.mp h with ⟨⟨ls, c'⟩, hgo, heq⟩
  simp only [Prod.mk.injEq] at heq
  rcases heq with ⟨hnb, hc⟩
  rcases utieGo_set marker epicN task hnl (splitLines body) false ls c' hgo
    with ⟨i, L, hidx, hlen, hset, hLnl⟩
  have hsplit : splitLines nb = ls := by
    rw [← hnb]
    refine splitLines_joinCRLF ls ?_ ?_
    · rw [hset]
      intro habs
      exact splitLines_ne_nil body (by simpa using congrArg List.length habs)
    · intro l hl
      rw [hset] at hl
      rcases List.mem_or_eq_of_mem_set hl with hmem | hrfl
      · exact splitLines_all_noNL body l hmem
      · rw [hrfl]; exact hLnl
  refine ⟨i, L, hidx, by rw [hsplit, hset], ?_⟩
  intro j hj
  rw [hsplit, hset]
  simp [List.getD_eq_getElem?_getD, List.getElem?_set_ne (fun hij => hj hij.symm)]

/-- Witness for C10: a workload with task 9 listed twice; only the first
occurrence is rewritten. -/
theorem task_driven_first_match_only_witness :
    ∃ i L,
      firstMatchIdx "Workload" 9
        (splitLines "## Workload\r\n- [ ] #9 A\r\n- [ ] #9 A") false = some i ∧
      splitLines "## Workload\r\n- [x] #9 B\r\n- [ ] #9 A" =
        (splitLines "## Workload\r\n- [ ] #9 A\r\n- [ ] #9 A").set i L ∧
      ∀ j, j ≠ i →
        (splitLines "## Workload\r\n- [x] #9 B\r\n- [ ] #9 A").getD j "" =
          (splitLines "## Workload\r\n- [ ] #9 A\r\n- [ ] #9 A").getD j "" :=
  task_driven_first_match_only "Workload" 3
    "## Workload\r\n- [ ] #9 A\r\n- [ ] #9 A" ⟨9, "B", "closed"⟩
    "## Workload\r\n- [x] #9 B\r\n- [ ] #9 A" (some (taskAuthBothComment 9 true))
    (by decide) (by decide)


/- ### The Epic-driven pass (updateEpic) -/

/-- Output of the body-rewriting loop of `updateEpic` (source lines 84-156):
the final line sequence, the applied mutations in order, the resulting task
table and whether the loop finished without a fatal failure (`return false`
paths set `ok := false`). -/
structure LoopOut where
  lines : List String
  muts : List Mutation
  store : Store
  ok : Bool

/-- The per-line loop of `updateEpic`.  A failed task fetch or a missing
task aborts (source lines 109-123), a failed Epic comment aborts (source
lines 143-152), but a `false` returned by `updateTask` after one of its
internal calls failed is indistinguishable from `null` to the caller
(source line 133), so the loop continues with the line unchanged. -/
def epicLoop (fails : Call → Bool) (marker : String) (epicN : Nat) :
    List String → Bool → Store → LoopOut
  | [], _, store => ⟨[], [], store, true⟩
  | line :: rest, inW, store =>
    if strStartsWith line "#" then
      if strEndsWith line marker then
        let r := epicLoop fails marker epicN rest true store
        ⟨line :: r.lines, r.muts, r.store, r.ok⟩
      else if inW then ⟨line :: rest, [], store, true⟩
      else
        let r := epicLoop fails marker epicN rest inW store
        ⟨line :: r.lines, r.muts, r.store, r.ok⟩
    else if !inW then
      let r := epicLoop fails marker epicN rest inW store
      ⟨line :: r.lines, r.muts, r.store, r.ok⟩
    else
      match taskExec line with
      | none =>
        let r := epicLoop fails marker epicN rest inW store
        ⟨line :: r.lines, r.muts, r.store, r.ok⟩
      | some m =>
        if fails (Call.getTask (digitsVal m.number)) then
          ⟨line :: rest, [], store, false⟩
        else
          match store (digitsVal m.number) with
          | none => ⟨line :: rest, [], store, false⟩
          | some task =>
            let u := updateTask fails epicN line task false
            match u.1 with
            | URes.ok newLine comment =>
              match comment with
              | some ctext =>
                if fails (Call.addComment epicN ctext) then
                  ⟨newLine :: rest, u.2, applyMuts store u.2, false⟩
                else
                  let r := epicLoop fails marker epicN rest inW
                    (applyMuts store u.2)
                  ⟨newLine :: r.lines,
                   u.2 ++ Mutation.addComment epicN ctext :: r.muts,
                   r.store, r.ok⟩
              | none =>
                let r := epicLoop fails marker epicN rest inW
                  (applyMuts store u.2)
                ⟨newLine :: r.lines, u.2 ++ r.muts, r.store, r.ok⟩
            | _ =>
              let r := epicLoop fails marker epicN rest inW
                (applyMuts store u.2)
              ⟨line :: r.lines, u.2 ++ r.muts, r.store, r.ok⟩

/-- Mutations issued by `closeEpicIfComplete` (source lines 410-469): when
the scan reports complete, a completion comment is posted and then the Epic
is closed; a failed comment skips the close. -/
def closeEpicMuts (fails : Call → Bool) (marker : String) (epicN : Nat)
    (body : String) : List Mutation :=
  if isComplete marker body then
    if fails (Call.addComment epicN closeEpicComment) then []
    else
      Mutation.addComment epicN closeEpicComment ::
        (if fails (Call.setState epicN "closed") then []
         else [Mutation.setState epicN "closed"])
  else []

/-- Result of one Epic-driven pass. -/
structure EpicRun where
  newBody : Option String
  muts : List Mutation
  store : Store
  ok : Bool

/-- Model of `updateEpic(epicIssue)` (source lines 74-176): run the loop
over the split body, then persist the joined body unconditionally (source
lines 158-169 have no change guard), then run the close-if-complete step
when configured. -/
def updateEpic (fails : Call → Bool) (marker : String) (closeCompleted : Bool)
    (store : Store) (epicN : Nat) (body : String) : EpicRun :=
  let r := epicLoop fails marker epicN (splitLines body) false store
  if !r.ok then ⟨none, r.muts, r.store, false⟩
  else
    let nb := joinCRLF r.lines
    if fails (Call.setBody epicN nb) then ⟨none, r.muts, r.store, false⟩
    else
      let ms := r.muts ++ [Mutation.setBody epicN nb]
      if closeCompleted then
        let cm := closeEpicMuts fails marker epicN nb
        ⟨some nb, ms ++ cm, applyMuts r.store cm, true⟩
      else ⟨some nb, ms, r.store, true⟩

/- ### The task-driven pass (updateEpicFromTask) -/

/-- One timeline entry as `updateEpicFromTask` reads it (source lines
202-216): the event kind, the source type, and the referencing issue's
number, title and body snapshot. -/
structure TimelineEvent where
  event : String
  sourceType : String
  srcNumber : Nat
  srcTitle : String
  srcBody : String
deriving Repr, DecidableEq

/-- Loop of `updateEpicFromTask` over the timeline (source lines 202-262).
Non-cross-reference events, non-issue sources and non-Epic titles are
skipped; for an Epic, a `null` result from `updateTaskInEpic` makes the
whole function return false (source lines 226-229), abandoning every
remaining timeline entry. -/
def taskDrivenLoop (fails : Call → Bool) (marker epicPfx : String)
    (closeCompleted : Bool) (task : TaskRecord) :
    List TimelineEvent → List Mutation × Bool
  | [] => ([], true)
  | e :: rest =>
    if !(e.event == "cross-referenced") then
      taskDrivenLoop fails marker epicPfx closeCompleted task rest
    else if !(e.sourceType == "issue") then
      taskDrivenLoop fails marker epicPfx closeCompleted task rest
    else if !(strStartsWith e.srcTitle epicPfx) then
      taskDrivenLoop fails marker epicPfx closeCompleted task rest
    else
      match updateTaskInEpic marker e.srcNumber e.srcBody task with
      | none => ([], false)
      | some (newBody, comment) =>
        if fails (Call.setBody e.srcNumber newBody) then ([], false)
        else
          match comment with
          | some ctext =>
            if fails (Call.addComment e.srcNumber ctext) then
              ([Mutation.setBody e.srcNumber newBody], false)
            else
              let cm := if closeCompleted then
                closeEpicMuts fails marker e.srcNumber newBody else []
              let r := taskDrivenLoop fails marker epicPfx closeCompleted task rest
              (Mutation.setBody e.srcNumber newBody ::
                Mutation.addComment e.srcNumber ctext :: (cm ++ r.1), r.2)
          | none =>
            let cm := if closeCompleted then
              closeEpicMuts fails marker e.srcNumber newBody else []
            let r := taskDrivenLoop fails marker epicPfx closeCompleted task rest
            (Mutation.setBody e.srcNumber newBody :: (cm ++ r.1), r.2)

/-- Model of `updateEpicFromTask(taskIssue)` (source lines 179-265), given
the already-fetched timeline. -/
def updateEpicFromTask (fails : Call → Bool) (marker epicPfx : String)
    (closeCompleted : Bool) (task : TaskRecord)
    (timeline : List TimelineEvent) : List Mutation × Bool :=
  taskDrivenLoop fails marker epicPfx closeCompleted task timeline

/- ### C4: a no-change Epic aborts the whole task-driven event -/

/-- C4: evaluating the task-driven pass at a timeline with two
cross-referencing Epics, where the task is absent from the first Epic's
workload section, stops at the first Epic with no mutations at all (source
line 228 returns false), even though the second Epic has an update to make:
its `updateTaskInEpic` result is non-null but is never persisted. -/
theorem task_not_found_aborts_event :
    updateEpicFromTask (fun _ => false) "Workload" "Epic" false
        ⟨7, "New", "closed"⟩
        [⟨"cross-referenced", "issue", 10, "Epic: One",
           "## Workload\r\n- [ ] #3 Other"⟩,
         ⟨"cross-referenced", "issue", 11, "Epic: Two",
           "## Workload\r\n- [ ] #7 Old"⟩] = ([], false) ∧
    (updateTaskInEpic "Workload" 11 "## Workload\r\n- [ ] #7 Old"
        ⟨7, "New", "closed"⟩).isSome = true := by
  constructor
  · decide
  · decide

/- ### C9: which collaborator failures abort the pass -/

/-- C9 counterexample: a failing state push on the first checklist line is
swallowed (the source's `return false` from `updateTask` is read as
"nothing to update" by the caller at line 133), so the second line is still
processed and mutated, and the pass even completes with `ok = true` and
persists the body. -/
theorem collaborator_failure_not_fatal_cex :
    (updateEpic (fun c => decide (c = Call.setState 1 "open")) "Workload"
        false
        (fun n => if n = 1 then some ⟨1, "A", "closed"⟩
                  else if n = 2 then some ⟨2, "B", "closed"⟩ else none)
        9 "## Workload\r\n- [ ] #1 A\r\n- [ ] #2 B").muts =
      [Mutation.setState 2 "open",
       Mutation.addComment 2 (taskStateChangeComment 9 false),
       Mutation.setBody 9 "## Workload\r\n- [ ] #1 A\r\n- [ ] #2 B"] ∧
    (updateEpic (fun c => decide (c = Call.setState 1 "open")) "Workload"
        false
        (fun n => if n = 1 then some ⟨1, "A", "closed"⟩
                  else if n = 2 then some ⟨2, "B", "closed"⟩ else none)
        9 "## Workload\r\n- [ ] #1 A\r\n- [ ] #2 B").ok = true ∧
    decide ((Call.setState 1 (stateStr false)) = Call.setState 1 "open") = true := by
  refine ⟨?_, ?_, ?_⟩
  · decide
  · decide
  · decide

theorem epicLoop_getTask_fails (fails : Call → Bool) (marker : String)
    (epicN : Nat) (hg : ∀ n, fails (Call.getTask n) = true) :
    ∀ (lines : List String) (inW : Bool) (store : Store),
      matchedNums marker lines inW ≠ [] →
      epicLoop fails marker epicN lines inW store = ⟨lines, [], store, false⟩ := by
  intro lines
  induction lines with
  | nil => intro inW store hne; exact absurd rfl hne
  | cons line rest ih =>
    intro inW store hne
    by_cases h1 : strStartsWith line "#" = true
    · by_cases h2 : strEndsWith line marker = true
      · have hne2 : matchedNums marker rest true ≠ [] := by
          simpa [matchedNums, workloadScan, h1, h2] using hne
        rw [epicLoop]
        simp [h1, h2, ih true store hne2]
      · cases inW with
        | true =>
          exact absurd (by simp [matchedNums, workloadScan, h1, h2]) hne
        | false =>
          have hne2 : matchedNums marker rest false ≠ [] := by
            simpa [matchedNums, workloadScan, h1, h2] using hne
          rw [epicLoop]
          simp [h1, h2, ih false store hne2]
    · cases inW with
      | false =>
        have hne2 : matchedNums marker rest false ≠ [] := by
          simpa [matchedNums, workloadScan, h1] using hne
        rw [epicLoop]
        simp [h1, ih false store hne2]
      | true =>
        cases hm : taskExec line with
        | none =>
          have hne2 : matchedNums marker rest true ≠ [] := by
            simpa [matchedNums, workloadScan, h1, hm] using hne
          rw [epicLoop]
          simp [h1, hm, ih true store hne2]
        | some m =>
          rw [epicLoop]
          simp [h1, hm, hg (digitsVal m.number)]

/-- C9 amended: a failure of the task-fetch call is fatal as soon as the
scan reaches a matched checklist line: the pass aborts with no mutation
applied at all and no body persisted (whereas, per the counterexample, a
failure inside the reconciler's own state push or task comment is swallowed
and the pass continues with the remaining lines). -/
theorem getTask_failure_aborts (marker : String) (cc : Bool) (store : Store)
    (epicN : Nat) (body : String) (fails : Call → Bool)
    (hg : ∀ n, fails (Call.getTask n) = true)
    (hne : matchedNums marker (splitLines body) false ≠ []) :
    updateEpic fails marker cc store epicN body = ⟨none, [], store, false⟩ := by
  unfold updateEpic
  rw [epicLoop_getTask_fails fails marker epicN hg (splitLines body) false
    store hne]
  simp

/-- Witness for the amended C9 at a one-task body with an always-failing
task fetch. -/
theorem getTask_failure_aborts_witness :
    updateEpic (fun c => match c with | Call.getTask _ => true | _ => false)
        "Workload" false (fun _ => none) 1 "## Workload\r\n- [ ] #2 T" =
      ⟨none, [], (fun _ => none), false⟩ :=
  getTask_failure_aborts "Workload" false (fun _ => none) 1
    "## Workload\r\n- [ ] #2 T"
    (fun c => match c with | Call.getTask _ => true | _ => false)
    (fun _ => rfl) (by decide)

/- ### C3: the second Epic-driven run -/

/-- Task-table well-formedness: a record fetched under a number carries
that number. -/
def wfStore (store : Store) : Prop :=
  ∀ n t, store n = some t → t.number = n

/-- A regular title: no line terminators and no leading space, so that a
rendered line reparses to the same title. -/
def regTitle (s : String) : Prop :=
  s.data.all (fun c => !isTerm c) = true ∧ s.data.head? ≠ some ' '

def regStore (store : Store) : Prop :=
  ∀ n t, store n = some t → regTitle t.title

/-- A line sequence is settled for a task table when every matched workload
line already agrees with its task record: the numbers resolve, the closed
flags coincide and the titles coincide.  The shape mirrors the scan. -/
def Settled (marker : String) (store : Store) : List String → Bool → Prop
  | [], _ => True
  | line :: rest, inW =>
    if strStartsWith line "#" then
      if strEndsWith line marker then Settled marker store rest true
      else if inW then True
      else Settled marker store rest inW
    else if !inW then Settled marker store rest inW
    else
      match taskExec line with
      | none => Settled marker store rest inW
      | some m =>
        (∃ t, store (digitsVal m.number) = some t ∧
          t.number = digitsVal m.number ∧
          (m.closed == 'x') = (t.state == "closed") ∧
          m.title = t.title.data) ∧
        Settled marker store rest inW

/-- On settled lines the Epic-driven loop is a strict no-op: same lines, no
mutation, same store. -/
theorem epicLoop_settled (marker : String) (epicN : Nat) :
    ∀ (lines : List String) (inW : Bool) (store : Store),
      Settled marker store lines inW →
      epicLoop (fun _ => false) marker epicN lines inW store =
        ⟨lines, [], store, true⟩ := by
  intro lines
  induction lines with
  | nil => intro inW store _; rfl
  | cons line rest ih =>
    intro inW store hs
    by_cases h1 : strStartsWith line "#" = true
    · by_cases h2 : strEndsWith line marker = true
      · have hs2 : Settled marker store rest true := by
          simpa [Settled, h1, h2] using hs
        rw [epicLoop]
        simp [h1, h2, ih true store hs2]
      · cases inW with
        | true => rw [epicLoop]; simp [h1, h2]
        | false =>
          have hs2 : Settled marker store rest false := by
            simpa [Settled, h1, h2] using hs
          rw [epicLoop]
          simp [h1, h2, ih false store hs2]
    · cases inW with
      | false =>
        have hs2 : Settled marker store rest false := by
          simpa [Settled, h1] using hs
        rw [epicLoop]
        simp [h1, ih false store hs2]
      | true =>
        cases hm : taskExec line with
        | none =>
          have hs2 : Settled marker store rest true := by
            simpa [Settled, h1, hm] using hs
          rw [epicLoop]
          simp [h1, hm, ih true store hs2]
        | some m =>
          have hs' : (∃ t, store (digitsVal m.number) = some t ∧
              t.number = digitsVal m.number ∧
              (m.closed == 'x') = (t.state == "closed") ∧
              m.title = t.title.data) ∧
              Settled marker store rest true := by
            simpa [Settled, h1, hm] using hs
          rcases hs' with ⟨⟨t, hst, htn, hflag, htitle⟩, hrest⟩
          have hu : updateTask (fun _ => false) epicN line t false =
              (URes.null, []) :=
            reconcile_noop _ epicN line t false m hm htn.symm hflag htitle
          rw [epicLoop]
          simp [h1, hm, hst, hu, applyMuts, ih true store hrest]

/-- Settledness only depends on the store's values at the matched numbers. -/
theorem settled_agree (marker : String) :
    ∀ (lines : List String) (inW : Bool) (store store' : Store),
      Settled marker store lines inW →
      (∀ n ∈ matchedNums marker lines inW, store' n = store n) →
      Settled marker store' lines inW := by
  intro lines
  induction lines with
  | nil => intro inW store store' _ _; trivial
  | cons line rest ih =>
    intro inW store store' hs hag
    by_cases h1 : strStartsWith line "#" = true
    · by_cases h2 : strEndsWith line marker = true
      · have hs2 : Settled marker store rest true := by
          simpa [Settled, h1, h2] using hs
        have hag2 : ∀ n ∈ matchedNums marker rest true, store' n = store n := by
          intro n hn
          exact hag n (by simpa [matchedNums, workloadScan, h1, h2] using hn)
        simpa [Settled, h1, h2] using ih true store store' hs2 hag2
      · cases inW with
        | true => simp [Settled, h1, h2]
        | false =>
          have hs2 : Settled marker store rest false := by
            simpa [Settled, h1, h2] using hs
          have hag2 : ∀ n ∈ matchedNums marker rest false, store' n = store n := by
            intro n hn
            exact hag n (by simpa [matchedNums, workloadScan, h1, h2] using hn)
          simpa [Settled, h1, h2] using ih false store store' hs2 hag2
    · cases inW with
      | false =>
        have hs2 : Settled marker store rest false := by
          simpa [Settled, h1] using hs
        have hag2 : ∀ n ∈ matchedNums marker rest false, store' n = store n := by
          intro n hn
          exact hag n (by simpa [matchedNums, workloadScan, h1] using hn)
        simpa [Settled, h1] using ih false store store' hs2 hag2
      | true =>
        cases hm : taskExec line with
        | none =>
          have hs2 : Settled marker store rest true := by
            simpa [Settled, h1, hm] using hs
          have hag2 : ∀ n ∈ matchedNums marker rest true, store' n = store n := by
            intro n hn
            exact hag n (by simpa [matchedNums, workloadScan, h1, hm] using hn)
          simpa [Settled, h1, hm] using ih true store store' hs2 hag2
        | some m =>
          have hs' : (∃ t, store (digitsVal m.number) = some t ∧
              t.number = digitsVal m.number ∧
              (m.closed == 'x') = (t.state == "closed") ∧
              m.title = t.title.data) ∧
              Settled marker store rest true := by
            simpa [Settled, h1, hm] using hs
          rcases hs' with ⟨⟨t, hst, htn, hflag, htitle⟩, hrest⟩
          have hcons : matchedNums marker (line :: rest) true =
              digitsVal m.number :: matchedNums marker rest true := by
            simp [matchedNums, workloadScan, h1, hm]
          have hag0 : store' (digitsVal m.number) = store (digitsVal m.number) := by
            refine hag _ ?_
            rw [hcons]
            exact List.mem_cons_self _ _
          have hag2 : ∀ n ∈ matchedNums marker rest true, store' n = store n := by
            intro n hn
            refine hag n ?_
            rw [hcons]
            exact List.mem_cons_of_mem _ hn
          have := ih true store store' hrest hag2
          simp only [Settled, h1, Bool.false_eq_true, if_false, hm]
          exact ⟨⟨t, hag0 ▸ hst, htn, hflag, htitle⟩, by simpa using this⟩

theorem beq_marker_x (flag : Bool) : ((if flag then 'x' else ' ') == 'x') = flag := by
  cases flag <;> rfl

theorem stateStr_beq_closed (flag : Bool) : (stateStr flag == "closed") = flag := by
  cases flag <;> decide

theorem render_not_heading (pre : List Char) (flag : Bool) (n : Nat)
    (title : List Char) (hp : pre.all (· == ' ') = true) :
    strStartsWith (String.mk (renderLine pre flag n title)) "#" = false := by
  unfold strStartsWith renderLine
  cases pre with
  | nil => rfl
  | cons c pre2 =>
    have hc : c = ' ' := by
      simp only [List.all_cons, Bool.and_eq_true, beq_iff_eq] at hp
      exact hp.1
    subst hc
    rfl

theorem regTitle_noNL (s : String) (h : regTitle s) :
    s.data.all (fun c => !(c == '\n')) = true := by
  rcases h with ⟨hall, _⟩
  simp only [List.all_eq_true] at hall ⊢
  intro c hc
  have := hall c hc
  unfold isTerm at this
  simp only [Bool.not_eq_true', Bool.or_eq_false_iff] at this
  simp [this.1.1.1]

/-- Characterization of the Epic-authoritative reconcile when something
differs: the rebuilt line takes the closed flag from the line and the title
from the record, and the applied mutations are the state push plus the task
comment exactly when the states differ. -/
theorem updateTask_epicAuth (epicN : Nat) (line : String) (t : TaskRecord)
    (m : TaskMatch) (hm : taskExec line = some m)
    (hn : digitsVal m.number = t.number)
    (hch : ((m.title == t.title.data) &&
      ((m.closed == 'x') == (t.state == "closed"))) = false) :
    ∃ cmt, updateTask (fun _ => false) epicN line t false =
      (URes.ok (String.mk
          (renderLine m.pre (m.closed == 'x') t.number t.title.data)) cmt,
       if (m.closed == 'x') == (t.state == "closed") then []
       else [Mutation.setState t.number (stateStr (m.closed == 'x')),
             Mutation.addComment t.number
               (taskStateChangeComment epicN (m.closed == 'x'))]) := by
  by_cases hT : (m.title == t.title.data) = true <;>
    by_cases hS : ((m.closed == 'x') == (t.state == "closed")) = true
  · rw [hT, hS] at hch; simp at hch
  · refine ⟨none, ?_⟩
    unfold updateTask
    rw [hm]
    simp [hn, hT, hS]
  · refine ⟨some (titleRefreshComment t.number), ?_⟩
    unfold updateTask
    rw [hm]
    simp [hn, hT, hS]
  · refine ⟨some (epicAuthBothComment t.number (m.closed == 'x')), ?_⟩
    unfold updateTask
    rw [hm]
    simp [hn, hT, hS]

def RunGood (marker : String) (lines : List String) (inW : Bool)
    (store : Store) (out : LoopOut) : Prop :=
  out.ok = true ∧
  out.lines.length = lines.length ∧
  matchedNums marker out.lines inW = matchedNums marker lines inW ∧
  (∀ n, n ∉ matchedNums marker lines inW → out.store n = store n) ∧
  wfStore out.store ∧ regStore out.store ∧
  Settled marker out.store out.lines inW ∧
  ((∀ l ∈ lines, noNL l = true) → ∀ l ∈ out.lines, noNL l = true)

theorem epicLoop_run (marker : String) (epicN : Nat) :
    ∀ (lines : List String) (inW : Bool) (store : Store),
      wfStore store → regStore store →
      (∀ n ∈ matchedNums marker lines inW, (store n).isSome = true) →
      (matchedNums marker lines inW).Nodup →
      RunGood marker lines inW store
        (epicLoop (fun _ => false) marker epicN lines inW store) := by
  intro lines
  induction lines with
  | nil =>
    intro inW store hwf hreg hres hnd
    exact ⟨rfl, rfl, rfl, fun n _ => rfl, hwf, hreg, trivial, fun h => h⟩
  | cons line rest ih =>
    intro inW store hwf hreg hres hnd
    by_cases h1 : strStartsWith line "#" = true
    · by_cases h2 : strEndsWith line marker = true
      · -- marker heading: enter workload
        have hmn : matchedNums marker (line :: rest) inW =
            matchedNums marker rest true := by
          simp [matchedNums, workloadScan, h1, h2]
        rw [hmn] at hres hnd
        obtain ⟨hok, hlen, hmn2, hfr, hwf2, hreg2, hset2, hnl2⟩ :=
          ih true store hwf hreg hres hnd
        rw [epicLoop]
        simp only [h1, h2, if_true]
        refine ⟨hok, by simpa using hlen, ?_, ?_, hwf2, hreg2, ?_, ?_⟩
        · rw [hmn]
          simpa [matchedNums, workloadScan, h1, h2] using hmn2
        · intro n hn
          rw [hmn] at hn
          exact hfr n hn
        · simpa [Settled, h1, h2] using hset2
        · intro hall l hl
          rcases List.mem_cons.mp hl with rfl | hl2
          · exact hall l (List.mem_cons_self _ _)
          · exact hnl2 (fun x hx => hall x (List.mem_cons_of_mem _ hx)) l hl2
      · cases inW with
        | true =>
          -- break at a non-marker heading inside the workload
          rw [epicLoop]
          simp only [h1, h2, Bool.false_eq_true, if_false, if_true]
          refine ⟨rfl, rfl, rfl, fun n _ => rfl, hwf, hreg, ?_, fun h => h⟩
          simp [Settled, h1, h2]
        | false =>
          have hmn : matchedNums marker (line :: rest) false =
              matchedNums marker rest false := by
            simp [matchedNums, workloadScan, h1, h2]
          rw [hmn] at hres hnd
          obtain ⟨hok, hlen, hmn2, hfr, hwf2, hreg2, hset2, hnl2⟩ :=
            ih false store hwf hreg hres hnd
          rw [epicLoop]
          simp only [h1, h2, Bool.false_eq_true, if_false]
          refine ⟨hok, by simpa using hlen, ?_, ?_, hwf2, hreg2, ?_, ?_⟩
          · rw [hmn]
            simpa [matchedNums, workloadScan, h1, h2] using hmn2
          · intro n hn
            rw [hmn] at hn
            exact hfr n hn
          · simpa [Settled, h1, h2] using hset2
          · intro hall l hl
            rcases List.mem_cons.mp hl with rfl | hl2
            · exact hall l (List.mem_cons_self _ _)
            · exact hnl2 (fun x hx => hall x (List.mem_cons_of_mem _ hx)) l hl2
    · cases inW with
      | false =>
        have hmn : matchedNums marker (line :: rest) false =
            matchedNums marker rest false := by
          simp [matchedNums, workloadScan, h1]
        rw [hmn] at hres hnd
        obtain ⟨hok, hlen, hmn2, hfr, hwf2, hreg2, hset2, hnl2⟩ :=
          ih false store hwf hreg hres hnd
        rw [epicLoop]
        simp only [h1, Bool.false_eq_true, if_false, Bool.not_false, if_true]
        refine ⟨hok, by simpa using hlen, ?_, ?_, hwf2, hreg2, ?_, ?_⟩
        · rw [hmn]
          simpa [matchedNums, workloadScan, h1] using hmn2
        · intro n hn
          rw [hmn] at hn
          exact hfr n hn
        · simpa [Settled, h1] using hset2
        · intro hall l hl
          rcases List.mem_cons.mp hl with rfl | hl2
          · exact hall l (List.mem_cons_self _ _)
          · exact hnl2 (fun x hx => hall x (List.mem_cons_of_mem _ hx)) l hl2
      | true =>
        cases hm : taskExec line with
        | none =>
          have hmn : matchedNums marker (line :: rest) true =
              matchedNums marker rest true := by
            simp [matchedNums, workloadScan, h1, hm]
          rw [hmn] at hres hnd
          obtain ⟨hok, hlen, hmn2, hfr, hwf2, hreg2, hset2, hnl2⟩ :=
            ih true store hwf hreg hres hnd
          rw [epicLoop]
          simp only [h1, Bool.false_eq_true, if_false, Bool.not_true, hm]
          refine ⟨hok, by simpa using hlen, ?_, ?_, hwf2, hreg2, ?_, ?_⟩
          · rw [hmn]
            simpa [matchedNums, workloadScan, h1, hm] using hmn2
          · intro n hn
            rw [hmn] at hn
            exact hfr n hn
          · simpa [Settled, h1, hm] using hset2
          · intro hall l hl
            rcases List.mem_cons.mp hl with rfl | hl2
            · exact hall l (List.mem_cons_self _ _)
            · exact hnl2 (fun x hx => hall x (List.mem_cons_of_mem _ hx)) l hl2
        | some m =>
          have hcons : matchedNums marker (line :: rest) true =
              digitsVal m.number :: matchedNums marker rest true := by
            simp [matchedNums, workloadScan, h1, hm]
          have hsome : (store (digitsVal m.number)).isSome = true := by
            refine hres _ ?_
            rw [hcons]
            exact List.mem_cons_self _ _
          obtain ⟨t, hst⟩ := Option.isSome_iff_exists.mp hsome
          have htn : t.number = digitsVal m.number := hwf _ _ hst
          have htreg : regTitle t.title := hreg _ _ hst
          have hnotin : digitsVal m.number ∉ matchedNums marker rest true := by
            rw [hcons] at hnd
            exact (List.nodup_cons.mp hnd).1
          have hndrest : (matchedNums marker rest true).Nodup := by
            rw [hcons] at hnd
            exact (List.nodup_cons.mp hnd).2
          have hresrest : ∀ n ∈ matchedNums marker rest true,
              (store n).isSome = true := by
            intro n hn
            refine hres n ?_
            rw [hcons]
            exact List.mem_cons_of_mem _ hn
          have hpre : m.pre.all (· == ' ') = true := taskExec_pre_spaces line m hm
          by_cases hch : ((m.title == t.title.data) &&
              ((m.closed == 'x') == (t.state == "closed"))) = true
          · -- the line already agrees with the record: reconcile is null
            rw [Bool.and_eq_true] at hch
            obtain ⟨hT, hS⟩ := hch
            have hSp : (m.closed == 'x') = (t.state == "closed") := by
              simpa using hS
            have hTp : m.title = t.title.data := by simpa using hT
            have hu : updateTask (fun _ => false) epicN line t false =
                (URes.null, []) :=
              reconcile_noop _ epicN line t false m hm htn.symm hSp hTp
            obtain ⟨hok, hlen, hmn2, hfr, hwf2, hreg2, hset2, hnl2⟩ :=
              ih true store hwf hreg hresrest hndrest
            rw [epicLoop]
            simp only [h1, Bool.false_eq_true, if_false, Bool.not_true, hm,
              hst, hu, applyMuts, List.foldl_nil]
            refine ⟨hok, by simpa using hlen, ?_, ?_, hwf2, hreg2, ?_, ?_⟩
            · have hmcons : matchedNums marker
                  (line :: (epicLoop (fun _ => false) marker epicN rest true
                    store).lines) true =
                  digitsVal m.number :: matchedNums marker
                    (epicLoop (fun _ => false) marker epicN rest true
                      store).lines true := by
                simp [matchedNums, workloadScan, h1, hm]
              rw [hmcons, hmn2, hcons]
            · intro n hn
              rw [hcons] at hn
              simp only [List.mem_cons, not_or] at hn
              exact hfr n hn.2
            · simp only [Settled, h1, Bool.false_eq_true, if_false,
                Bool.not_true, hm]
              refine ⟨⟨t, ?_, htn, hSp, hTp⟩, hset2⟩
              rw [hfr _ hnotin]
              exact hst
            · intro hall l hl
              rcases List.mem_cons.mp hl with rfl | hl2
              · exact hall l (List.mem_cons_self _ _)
              · exact hnl2 (fun x hx => hall x (List.mem_cons_of_mem _ hx)) l hl2
          · -- something differs: the line is rewritten and the state pushed
            have hch2 : ((m.title == t.title.data) &&
                ((m.closed == 'x') == (t.state == "closed"))) = false :=
              Bool.eq_false_iff.mpr hch
            obtain ⟨cmt, hu⟩ := updateTask_epicAuth epicN line t m hm htn.symm hch2
            set ms0 : List Mutation :=
              (if (m.closed == 'x') == (t.state == "closed") then []
               else [Mutation.setState t.number (stateStr (m.closed == 'x')),
                     Mutation.addComment t.number
                       (taskStateChangeComment epicN (m.closed == 'x'))]) with hms0
            have hkey : ∃ t2, applyMuts store ms0 (digitsVal m.number) = some t2 ∧
                t2.number = digitsVal m.number ∧
                (t2.state == "closed") = (m.closed == 'x') ∧
                t2.title = t.title := by
              by_cases hS : ((m.closed == 'x') == (t.state == "closed")) = true
              · refine ⟨t, ?_, htn, ?_, rfl⟩
                · rw [hms0]
                  simp [hS, applyMuts, hst]
                · exact (by simpa using hS :
                    (m.closed == 'x') = (t.state == "closed")).symm
              · refine ⟨{ t with state := stateStr (m.closed == 'x') }, ?_, htn,
                  ?_, rfl⟩
                · rw [hms0]
                  simp only [hS, Bool.false_eq_true, if_false, applyMuts,
                    List.foldl_cons, List.foldl_nil, applyMut]
                  rw [if_pos htn.symm, hst]
                  rfl
                · simp [stateStr_beq_closed]
            have hframe2 : ∀ k, k ≠ digitsVal m.number →
                applyMuts store ms0 k = store k := by
              intro k hk
              by_cases hS : ((m.closed == 'x') == (t.state == "closed")) = true
              · rw [hms0]
                simp [hS, applyMuts]
              · rw [hms0]
                simp only [hS, Bool.false_eq_true, if_false, applyMuts,
                  List.foldl_cons, List.foldl_nil, applyMut]
                rw [if_neg (by rw [htn]; exact hk)]
            have hsome2 : ∀ k, (applyMuts store ms0 k).isSome =
                (store k).isSome := by
              intro k
              by_cases hS : ((m.closed == 'x') == (t.state == "closed")) = true
              · rw [hms0]
                simp [hS, applyMuts]
              · rw [hms0]
                simp only [hS, Bool.false_eq_true, if_false, applyMuts,
                  List.foldl_cons, List.foldl_nil, applyMut]
                by_cases hkt : k = t.number
                · rw [if_pos hkt]
                  cases store k <;> simp
                · rw [if_neg hkt]
            have hwf2s : wfStore (applyMuts store ms0) := by
              intro k u hku
              by_cases hS : ((m.closed == 'x') == (t.state == "closed")) = true
              · rw [hms0] at hku
                simp [hS, applyMuts] at hku
                exact hwf k u hku
              · rw [hms0] at hku
                simp only [hS, Bool.false_eq_true, if_false, applyMuts,
                  List.foldl_cons, List.foldl_nil, applyMut] at hku
                by_cases hkt : k = t.number
                · rw [if_pos hkt] at hku
                  cases hsk : store k with
                  | none => rw [hsk] at hku; simp at hku
                  | some v =>
                    rw [hsk] at hku
                    simp only [Option.map_some', Option.some.injEq] at hku
                    have := hwf k v hsk
                    rw [← hku]
                    simpa using this
                · rw [if_neg hkt] at hku
                  exact hwf k u hku
            have hreg2s : regStore (applyMuts store ms0) := by
              intro k u hku
              by_cases hS : ((m.closed == 'x') == (t.state == "closed")) = true
              · rw [hms0] at hku
                simp [hS, applyMuts] at hku
                exact hreg k u hku
              · rw [hms0] at hku
                simp only [hS, Bool.false_eq_true, if_false, applyMuts,
                  List.foldl_cons, List.foldl_nil, applyMut] at hku
                by_cases hkt : k = t.number
                · rw [if_pos hkt] at hku
                  cases hsk : store k with
                  | none => rw [hsk] at hku; simp at hku
                  | some v =>
                    rw [hsk] at hku
                    simp only [Option.map_some', Option.some.injEq] at hku
                    have := hreg k v hsk
                    rw [← hku]
                    simpa using this
                · rw [if_neg hkt] at hku
                  exact hreg k u hku
            obtain ⟨t2, ht2st, ht2n, ht2flag, ht2title⟩ := hkey
            have hres2 : ∀ n ∈ matchedNums marker rest true,
                ((applyMuts store ms0) n).isSome = true := by
              intro n hn
              rw [hsome2]
              exact hresrest n hn
            obtain ⟨hok, hlen, hmn2, hfr, hwf3, hreg3, hset3, hnl3⟩ :=
              ih true (applyMuts store ms0) hwf2s hreg2s hres2 hndrest
            have hexec2 : taskExec (String.mk (renderLine m.pre
                (m.closed == 'x') t.number t.title.data)) =
                some ⟨m.pre, (if (m.closed == 'x') then 'x' else ' '),
                  natDigits t.number, t.title.data⟩ :=
              taskExec_render m.pre (m.closed == 'x') t.number t.title.data
                hpre htreg.1 htreg.2
            have hnh : strStartsWith (String.mk (renderLine m.pre
                (m.closed == 'x') t.number t.title.data)) "#" = false :=
              render_not_heading _ _ _ _ hpre
            have hassm : ∀ msAny : List Mutation,
                RunGood marker (line :: rest) true store
                  ⟨String.mk (renderLine m.pre (m.closed == 'x') t.number
                      t.title.data) ::
                    (epicLoop (fun _ => false) marker epicN rest true
                      (applyMuts store ms0)).lines,
                   msAny,
                   (epicLoop (fun _ => false) marker epicN rest true
                     (applyMuts store ms0)).store,
                   (epicLoop (fun _ => false) marker epicN rest true
                     (applyMuts store ms0)).ok⟩ := by
              intro msAny
              refine ⟨hok, by simpa using hlen, ?_, ?_, hwf3, hreg3, ?_, ?_⟩
              · have hmcons : matchedNums marker
                    (String.mk (renderLine m.pre (m.closed == 'x') t.number
                        t.title.data) ::
                      (epicLoop (fun _ => false) marker epicN rest true
                        (applyMuts store ms0)).lines) true =
                    digitsVal (natDigits t.number) :: matchedNums marker
                      (epicLoop (fun _ => false) marker epicN rest true
                        (applyMuts store ms0)).lines true := by
                  simp [matchedNums, workloadScan, hnh, hexec2]
                rw [hmcons, digitsVal_natDigits, htn, hmn2, hcons]
              · intro n hn
                rw [hcons] at hn
                simp only [List.mem_cons, not_or] at hn
                rw [hfr n hn.2, hframe2 n hn.1]
              · simp only [Settled, hnh, Bool.false_eq_true, if_false,
                  Bool.not_true, hexec2]
                refine ⟨⟨t2, ?_, ?_, ?_, ?_⟩, hset3⟩
                · rw [digitsVal_natDigits, htn, hfr _ hnotin]
                  exact ht2st
                · rw [digitsVal_natDigits, htn]
                  exact ht2n
                · rw [beq_marker_x]
                  exact ht2flag.symm
                · rw [ht2title]
              · intro hall l hl
                rcases List.mem_cons.mp hl with rfl | hl2
                · show noNL _ = true
                  unfold noNL
                  exact noNL_renderLine _ _ _ _ hpre (regTitle_noNL _ htreg)
                · exact hnl3 (fun x hx => hall x (List.mem_cons_of_mem _ hx))
                    l hl2
            cases cmt with
            | none =>
              rw [epicLoop]
              simp only [h1, Bool.false_eq_true, if_false, Bool.not_true, hm,
                hst, hu]
              exact hassm _
            | some ctext =>
              rw [epicLoop]
              simp only [h1, Bool.false_eq_true, if_false, Bool.not_true, hm,
                hst, hu]
              exact hassm _

theorem closeEpicMuts_nofail (marker : String) (epicN : Nat) (b : String) :
    closeEpicMuts (fun _ => false) marker epicN b =
      if isComplete marker b then
        [Mutation.addComment epicN closeEpicComment,
         Mutation.setState epicN "closed"]
      else [] := by
  unfold closeEpicMuts
  split <;> simp

/-- C3 amended: after one Epic-driven pass (with every referenced task
resolvable, regular titles, pairwise distinct matched numbers, and the Epic
not listing itself), a second pass on the persisted body and resulting task
table changes nothing textually and issues no task mutation and no
reconciliation comment; but it is not mutation-free: the source persists
the body unconditionally (lines 158-169), and when auto-close applies it
re-posts the completion comment and re-closes, every run. -/
theorem epic_sync_second_run (marker : String) (cc : Bool) (store : Store)
    (epicN : Nat) (body : String)
    (hwf : wfStore store) (hreg : regStore store)
    (hres : ∀ n ∈ matchedNums marker (splitLines body) false,
      (store n).isSome = true)
    (hnd : (matchedNums marker (splitLines body) false).Nodup)
    (hself : epicN ∉ matchedNums marker (splitLines body) false) :
    ∃ body1 ms1 st1 st2,
      updateEpic (fun _ => false) marker cc store epicN body =
        ⟨some body1, ms1, st1, true⟩ ∧
      updateEpic (fun _ => false) marker cc st1 epicN body1 =
        ⟨some body1,
         Mutation.setBody epicN body1 ::
           (if cc && isComplete marker body1 then
              [Mutation.addComment epicN closeEpicComment,
               Mutation.setState epicN "closed"]
            else []),
         st2, true⟩ := by
  obtain ⟨hok, hlen, hmn2, hfr, hwf2, hreg2, hset2, hnl2⟩ :=
    epicLoop_run marker epicN (splitLines body) false store hwf hreg hres hnd
  set out := epicLoop (fun _ => false) marker epicN (splitLines body) false
    store with hout
  set body1 := joinCRLF out.lines with hbody1
  have hnlines : ∀ l ∈ out.lines, noNL l = true :=
    hnl2 (splitLines_all_noNL body)
  have hne : out.lines ≠ [] := by
    intro h0
    have h2 := splitLines_ne_nil body
    rw [h0] at hlen
    cases hsp : splitLines body with
    | nil => exact h2 hsp
    | cons a as => rw [hsp] at hlen; simp at hlen
  have hsplit1 : splitLines body1 = out.lines :=
    splitLines_joinCRLF out.lines hne hnlines
  cases cc with
  | false =>
    refine ⟨body1, out.muts ++ [Mutation.setBody epicN body1], out.store,
      out.store, ?_, ?_⟩
    · unfold updateEpic
      rw [← hout]
      simp [hok, ← hbody1]
    · unfold updateEpic
      rw [hsplit1, epicLoop_settled marker epicN out.lines false out.store hset2]
      simp [← hbody1]
  | true =>
    have hag : ∀ n ∈ matchedNums marker out.lines false,
        applyMuts out.store
          (closeEpicMuts (fun _ => false) marker epicN body1) n =
        out.store n := by
      intro n hn
      rw [hmn2] at hn
      have hne2 : n ≠ epicN := fun h => hself (h ▸ hn)
      rw [closeEpicMuts_nofail]
      by_cases hic : isComplete marker body1 = true
      · simp [hic, applyMuts, applyMut, hne2]
      · simp [hic, applyMuts]
    have hset3 : Settled marker
        (applyMuts out.store
          (closeEpicMuts (fun _ => false) marker epicN body1))
        out.lines false :=
      settled_agree marker out.lines false out.store _ hset2 hag
    refine ⟨body1,
      out.muts ++ [Mutation.setBody epicN body1] ++
        closeEpicMuts (fun _ => false) marker epicN body1,
      applyMuts out.store (closeEpicMuts (fun _ => false) marker epicN body1),
      applyMuts
        (applyMuts out.store (closeEpicMuts (fun _ => false) marker epicN body1))
        (closeEpicMuts (fun _ => false) marker epicN body1),
      ?_, ?_⟩
    · unfold updateEpic
      rw [← hout]
      simp [hok, ← hbody1]
    · unfold updateEpic
      rw [hsplit1, epicLoop_settled marker epicN out.lines false _ hset3]
      simp only [LoopOut.lines, LoopOut.muts, LoopOut.store, LoopOut.ok,
        Bool.not_true, Bool.false_eq_true, if_false, List.nil_append]
      rw [← hbody1, closeEpicMuts_nofail]
      by_cases hic : isComplete marker body1 = true
      · simp [hic]
      · simp [hic]

/-- Witness for the amended C3: one open checklist line for task 2 against
a currently open record with the same title whose checkbox is ticked; the
first pass pushes the state, the second pass issues only the unconditional
body re-persist. -/
theorem epic_sync_second_run_witness :
    ∃ body1 ms1 st1 st2,
      updateEpic (fun _ => false) "Workload" false
          (fun n => if n = 2 then some ⟨2, "B", "open"⟩ else none) 5
          "## Workload\r\n- [x] #2 B" =
        ⟨some body1, ms1, st1, true⟩ ∧
      updateEpic (fun _ => false) "Workload" false st1 5 body1 =
        ⟨some body1,
         Mutation.setBody 5 body1 ::
           (if false && isComplete "Workload" body1 then
              [Mutation.addComment 5 closeEpicComment,
               Mutation.setState 5 "closed"]
            else []),
         st2, true⟩ := by
  refine epic_sync_second_run "Workload" false
    (fun n => if n = 2 then some ⟨2, "B", "open"⟩ else none) 5
    "## Workload\r\n- [x] #2 B" ?_ ?_ ?_ ?_ ?_
  · intro n t h
    replace h : (if n = 2 then some (⟨2, "B", "open"⟩ : TaskRecord)
        else none) = some t := h
    by_cases h2 : n = 2
    · subst h2
      rw [if_pos rfl] at h
      cases h
      rfl
    · rw [if_neg h2] at h
      cases h
  · intro n t h
    replace h : (if n = 2 then some (⟨2, "B", "open"⟩ : TaskRecord)
        else none) = some t := h
    by_cases h2 : n = 2
    · subst h2
      rw [if_pos rfl] at h
      cases h
      exact ⟨by decide, by decide⟩
    · rw [if_neg h2] at h
      cases h
  · intro n hn
    have hmn : matchedNums "Workload"
        (splitLines "## Workload\r\n- [x] #2 B") false = [2] := by decide
    rw [hmn] at hn
    simp only [List.mem_singleton] at hn
    subst hn
    decide
  · have hmn : matchedNums "Workload"
        (splitLines "## Workload\r\n- [x] #2 B") false = [2] := by decide
    rw [hmn]
    decide
  · have hmn : matchedNums "Workload"
        (splitLines "## Workload\r\n- [x] #2 B") false = [2] := by decide
    rw [hmn]
    decide

/-- C3 counterexample: a fully settled Epic (nothing to reconcile) still
issues a body-persist mutation on every run; the second run is the
identical call and issues the same mutation, so the claim's zero-mutation
second run is false and the body is persisted even though it did not
change. -/
theorem second_run_still_persists_cex :
    (updateEpic (fun _ => false) "Workload" false
        (fun n => if n = 1 then some ⟨1, "A", "closed"⟩ else none) 5
        "## Workload\r\n- [x] #1 A").newBody =
      some "## Workload\r\n- [x] #1 A" ∧
    (updateEpic (fun _ => false) "Workload" false
        (fun n => if n = 1 then some ⟨1, "A", "closed"⟩ else none) 5
        "## Workload\r\n- [x] #1 A").muts =
      [Mutation.setBody 5 "## Workload\r\n- [x] #1 A"] := by
  constructor
  · decide
  · decide

end EpicBot
